import Mathlib

/-!
Verification of the lexical scanner in `src/core/expression/src/lexer/lexer.rs`.

The scanner is embedded shallowly: the source text is a `List Char`, the
cursor is an explicit position (`Nat`), and every scan routine is a pure
function from a position to either a `LexerError` or the new position
together with the emitted tokens.  Loops of the Rust code become
fuel-indexed structural recursion; every caller passes fuel
`src.length + 1`, which is always sufficient because each loop iteration
advances the cursor by at least one position.

The modules `cursor.rs`, `codes.rs`, `error.rs` and `token.rs` are not part
of the provided sources; the definitions that stand in for them are
modelled from the spec (sections 2, 3, 4.1, 6 and 7) and are marked as such.
-/

deriving instance DecidableEq for Except

namespace Zen

/-- The delimiter characters of the lexer, written via their ASCII code
points: single quote (39), double quote (34), backtick (96),
opening brace (123), closing brace (125). -/
def singleQuoteChar : Char := Char.ofNat 39

def doubleQuoteChar : Char := Char.ofNat 34

def backtickChar : Char := Char.ofNat 96

def openBraceChar : Char := Char.ofNat 123

def closeBraceChar : Char := Char.ofNat 125

/-- Modelled from the spec (section 3): the closed set of quotation-mark
kinds of `token.rs`. -/
inductive QuotationMark where
  | SingleQuote
  | DoubleQuote
  | Backtick
  deriving DecidableEq, Repr

/-- Modelled from the spec (section 3): the template-string marker kinds. -/
inductive TemplateString where
  | ExpressionStart
  | ExpressionEnd
  deriving DecidableEq, Repr

/-- Modelled from the spec (section 3): bracket kinds of `token.rs`. -/
inductive Bracket where
  | LeftParenthesis
  | RightParenthesis
  | LeftSquareBracket
  | RightSquareBracket
  | LeftCurlyBracket
  | RightCurlyBracket
  deriving DecidableEq, Repr

/-- Modelled from the spec (section 3): arithmetic operator kinds. -/
inductive ArithmeticOperator where
  | Add
  | Subtract
  | Multiply
  | Divide
  | Modulus
  | Power
  deriving DecidableEq, Repr

/-- Modelled from the spec (section 3): logical operator kinds, including
nullish coalescing. -/
inductive LogicalOperator where
  | And
  | Or
  | Not
  | NullishCoalescing
  deriving DecidableEq, Repr

/-- Modelled from the spec (section 3): comparison operator kinds, including
membership (`in`, `not in`). -/
inductive ComparisonOperator where
  | Equal
  | NotEqual
  | LessThan
  | GreaterThan
  | LessThanOrEqual
  | GreaterThanOrEqual
  | In
  | NotIn
  deriving DecidableEq, Repr

/-- Modelled from the spec (section 3): the operator kind of `token.rs`,
with arithmetic, logical, comparison, range/dot and question-mark
variants. -/
inductive Operator where
  | Arithmetic (op : ArithmeticOperator)
  | Logical (op : LogicalOperator)
  | Comparison (op : ComparisonOperator)
  | Range
  | Dot
  | Comma
  | QuestionMark
  deriving DecidableEq, Repr

/-- Modelled from the spec (section 3): the closed token-kind variant set.
The identifier payload is the raw name (`Identifier::from(value)`). -/
inductive TokenKind where
  | QuotationMark (mark : QuotationMark)
  | Literal
  | Number
  | Boolean (b : Bool)
  | Bracket (bracket : Bracket)
  | Operator (op : Operator)
  | Identifier (name : List Char)
  | TemplateString (part : TemplateString)
  deriving DecidableEq, Repr

/-- A token: kind, half-open span `(start, end_exclusive)` into the source,
and the value text (`token.rs`: `Token`). -/
structure Token where
  kind : TokenKind
  span : Nat × Nat
  value : List Char
  deriving DecidableEq, Repr

/-- Modelled from the spec (section 7): the two lexer error kinds of
`error.rs`, each carrying a character and a position. -/
inductive LexerError where
  | UnmatchedSymbol (symbol : Char) (position : Nat)
  | UnexpectedEof (symbol : Char) (position : Nat)
  deriving DecidableEq, Repr

/-- Modelled from the spec: the text of a quotation-mark token
(`quote_kind.into()`). -/
def QuotationMark.intoChars : QuotationMark → List Char
  | .SingleQuote => [singleQuoteChar]
  | .DoubleQuote => [doubleQuoteChar]
  | .Backtick => [backtickChar]

/-- Modelled from the spec: the text of a template-string marker token
(`TemplateString::…into()`). -/
def TemplateString.intoChars : TemplateString → List Char
  | .ExpressionStart => ['$', openBraceChar]
  | .ExpressionEnd => [closeBraceChar]

/-- Modelled from the spec (section 2): the `codes.rs` space class,
ASCII whitespace. -/
def isSpaceChar (c : Char) : Bool :=
  c == ' ' || c == '\t' || c == '\n' || c == '\r'

/-- The `codes.rs` digit class: ASCII digits. -/
def isDigitChar (c : Char) : Bool := c.isDigit

/-- Modelled from the spec (section 2): the `codes.rs` bracket class. -/
def isBracketChar (c : Char) : Bool :=
  c == '(' || c == ')' || c == '[' || c == ']' ||
    c == openBraceChar || c == closeBraceChar

/-- Modelled from the spec (section 4.6): characters that start a
comparison operator, each optionally extended by a trailing `=`. -/
def isCmpOperatorChar (c : Char) : Bool :=
  c == '<' || c == '>' || c == '=' || c == '!'

/-- Modelled from the spec (section 2): single-character generic
operators. -/
def isOperatorChar (c : Char) : Bool :=
  c == '+' || c == '-' || c == '*' || c == '/' || c == '%' ||
    c == '^' || c == ','

/-- The `codes.rs` question-mark class. -/
def isQuestionMarkChar (c : Char) : Bool := c == '?'

/-- Modelled from the spec (section 2): the `codes.rs` alpha class,
ASCII letters plus `_` and `$`. -/
def isAlphaChar (c : Char) : Bool := c.isAlpha || c == '_' || c == '$'

/-- The `codes.rs` alphanumeric class: alpha or digit. -/
def isAlphanumericChar (c : Char) : Bool := isAlphaChar c || isDigitChar c

/-- Modelled from the spec (section 4.6): the fallible conversion from
matched text to a bracket kind (`Bracket::try_from`). -/
def Bracket.tryFrom (value : List Char) : Option Bracket :=
  if value = ['('] then some .LeftParenthesis
  else if value = [')'] then some .RightParenthesis
  else if value = ['['] then some .LeftSquareBracket
  else if value = [']'] then some .RightSquareBracket
  else if value = [openBraceChar] then some .LeftCurlyBracket
  else if value = [closeBraceChar] then some .RightCurlyBracket
  else none

/-- Modelled from the spec (sections 3 and 4.6): the fallible conversion
from matched text to an operator kind (`Operator::try_from`). -/
def Operator.tryFrom (value : List Char) : Option Operator :=
  if value = ['+'] then some (.Arithmetic .Add)
  else if value = ['-'] then some (.Arithmetic .Subtract)
  else if value = ['*'] then some (.Arithmetic .Multiply)
  else if value = ['/'] then some (.Arithmetic .Divide)
  else if value = ['%'] then some (.Arithmetic .Modulus)
  else if value = ['^'] then some (.Arithmetic .Power)
  else if value = [','] then some .Comma
  else if value = ['.'] then some .Dot
  else if value = ['.', '.'] then some .Range
  else if value = ['<'] then some (.Comparison .LessThan)
  else if value = ['<', '='] then some (.Comparison .LessThanOrEqual)
  else if value = ['>'] then some (.Comparison .GreaterThan)
  else if value = ['>', '='] then some (.Comparison .GreaterThanOrEqual)
  else if value = ['=', '='] then some (.Comparison .Equal)
  else if value = ['!', '='] then some (.Comparison .NotEqual)
  else if value = ['!'] then some (.Logical .Not)
  else none

/-- `source[a..b]`, the half-open slice of the source text. -/
def slice (src : List Char) (a b : Nat) : List Char :=
  (src.drop a).take (b - a)

/-- Modelled from the spec (section 4.1): `Cursor::peek_back` followed by
`unwrap_or((0, ' '))`, as used by `Scanner::next` to build the
end-of-input error: the last consumed character and its position, or the
sentinel `(0, ' ')` when nothing was consumed yet. -/
def eofError (src : List Char) (pos : Nat) : LexerError :=
  match pos with
  | 0 => .UnexpectedEof ' ' 0
  | p + 1 =>
    match src[p]? with
    | some c => .UnexpectedEof c p
    | none => .UnexpectedEof ' ' 0

/-- `Scanner::next`: consume the next character, or fail with the
end-of-input error.  Returns the index of the consumed character; the
caller continues at index + 1 (`cursor.rs` `Cursor::next`). -/
def nextc (src : List Char) (pos : Nat) : Except LexerError (Nat × Char) :=
  match src[pos]? with
  | some c => .ok (pos, c)
  | none => .error (eofError src pos)

/-- `Cursor::next_if_is`: does the remaining source at `pos` start with the
literal?  (On success the Rust cursor advances by the literal's length.) -/
def nextIfIs (src : List Char) (pos : Nat) (lit : List Char) : Bool :=
  List.isPrefixOf lit (src.drop pos)

/-- The loop of `Scanner::string`: consume characters until the opening
quote character reappears, returning its index; end of input is the
`UnexpectedEof` error. -/
def stringLoop (src : List Char) (opener : Char) :
    Nat → Nat → Except LexerError Nat
  | 0, pos => .error (eofError src pos)
  | fuel + 1, pos =>
    match src[pos]? with
    | none => .error (eofError src pos)
    | some c => if c = opener then .ok pos else stringLoop src opener fuel (pos + 1)

/-- `Scanner::string`: opening quote mark, literal body, closing quote
mark. -/
def string (src : List Char) (quoteKind : QuotationMark) (pos : Nat) :
    Except LexerError (Nat × List Token) :=
  match nextc src pos with
  | .error err => .error err
  | .ok (start, opener) =>
    match stringLoop src opener (src.length + 1) (start + 1) with
    | .error err => .error err
    | .ok endIdx =>
      .ok (endIdx + 1,
        [ ⟨.QuotationMark quoteKind, (start, start + 1), quoteKind.intoChars⟩,
          ⟨.Literal, (start + 1, endIdx), slice src (start + 1) endIdx⟩,
          ⟨.QuotationMark quoteKind, (endIdx, endIdx + 1), quoteKind.intoChars⟩ ])

/-- The loop of `Scanner::number`: `next_if` over digits, underscores and
dots, stepping back and stopping before a second fractional dot or a
`..` range.  Returns the index of the last accepted character and the new
cursor position. -/
def numberLoop (src : List Char) :
    Nat → Nat → Nat → Bool → Nat × Nat
  | 0, pos, endIdx, _ => (endIdx, pos)
  | fuel + 1, pos, endIdx, fractal =>
    match src[pos]? with
    | none => (endIdx, pos)
    | some c =>
      if isDigitChar c || c = '_' || c = '.' then
        if fractal ∧ c = '.' then
          (endIdx, pos)
        else if c = '.' then
          match src[pos + 1]? with
          | some p =>
            if p = '.' then (endIdx, pos)
            else numberLoop src fuel (pos + 1) pos true
          | none => numberLoop src fuel (pos + 1) pos fractal
        else numberLoop src fuel (pos + 1) pos fractal
      else (endIdx, pos)

/-- `Scanner::number`: one `Number` token covering the matched span. -/
def number (src : List Char) (pos : Nat) :
    Except LexerError (Nat × List Token) :=
  match nextc src pos with
  | .error err => .error err
  | .ok (start, _) =>
    let r := numberLoop src (src.length + 1) (start + 1) start false
    .ok (r.2, [⟨.Number, (start, r.1 + 1), slice src start (r.1 + 1)⟩])

/-- `Scanner::bracket`: exactly one character, fallibly converted to a
bracket kind. -/
def bracket (src : List Char) (pos : Nat) :
    Except LexerError (Nat × List Token) :=
  match nextc src pos with
  | .error err => .error err
  | .ok (start, c) =>
    match Bracket.tryFrom (slice src start (start + 1)) with
    | some b =>
      .ok (start + 1, [⟨.Bracket b, (start, start + 1), slice src start (start + 1)⟩])
    | none => .error (.UnmatchedSymbol c start)

/-- `Scanner::dot`: `.` optionally extended to `..`, converted through
`Operator::try_from`. -/
def dot (src : List Char) (pos : Nat) :
    Except LexerError (Nat × List Token) :=
  match nextc src pos with
  | .error err => .error err
  | .ok (start, c) =>
    let endIdx :=
      match src[start + 1]? with
      | some c2 => if c2 = '.' then start + 1 else start
      | none => start
    match Operator.tryFrom (slice src start (endIdx + 1)) with
    | some op =>
      .ok (endIdx + 1, [⟨.Operator op, (start, endIdx + 1), slice src start (endIdx + 1)⟩])
    | none => .error (.UnmatchedSymbol c start)

/-- `Scanner::cmp_operator`: a comparison starter optionally extended by a
trailing `=`. -/
def cmpOperator (src : List Char) (pos : Nat) :
    Except LexerError (Nat × List Token) :=
  match nextc src pos with
  | .error err => .error err
  | .ok (start, c) =>
    let endIdx :=
      match src[start + 1]? with
      | some c2 => if c2 = '=' then start + 1 else start
      | none => start
    match Operator.tryFrom (slice src start (endIdx + 1)) with
    | some op =>
      .ok (endIdx + 1, [⟨.Operator op, (start, endIdx + 1), slice src start (endIdx + 1)⟩])
    | none => .error (.UnmatchedSymbol c start)

/-- `Scanner::question_mark`: `?` or the nullish-coalescing `??`. -/
def questionMark (src : List Char) (pos : Nat) :
    Except LexerError (Nat × List Token) :=
  match nextc src pos with
  | .error err => .error err
  | .ok (start, _) =>
    let ext : Bool := (src[start + 1]?).any (fun c2 => c2 == '?')
    let kind : TokenKind :=
      if ext = true then .Operator (.Logical .NullishCoalescing)
      else .Operator .QuestionMark
    let endIdx := if ext = true then start + 1 else start
    .ok (endIdx + 1, [⟨kind, (start, endIdx + 1), slice src start (endIdx + 1)⟩])

/-- `Scanner::operator`: exactly one character, fallibly converted to an
operator kind. -/
def operator (src : List Char) (pos : Nat) :
    Except LexerError (Nat × List Token) :=
  match nextc src pos with
  | .error err => .error err
  | .ok (start, c) =>
    match Operator.tryFrom (slice src start (start + 1)) with
    | some op =>
      .ok (start + 1, [⟨.Operator op, (start, start + 1), slice src start (start + 1)⟩])
    | none => .error (.UnmatchedSymbol c start)

/-- The loop of `Scanner::identifier`: `next_if` over alphanumeric
characters.  Returns the index of the last accepted character and the new
cursor position. -/
def identLoop (src : List Char) : Nat → Nat → Nat → Nat × Nat
  | 0, pos, endIdx => (endIdx, pos)
  | fuel + 1, pos, endIdx =>
    match src[pos]? with
    | none => (endIdx, pos)
    | some c =>
      if isAlphanumericChar c then identLoop src fuel (pos + 1) pos
      else (endIdx, pos)

/-- `Scanner::not`: one extra lookahead after the keyword `not`.  If the
literal `" in "` follows, the two words collapse into a single `NotIn`
token with span `(start, position() - 1)` and fixed value `"not in"`;
otherwise a standalone logical `not` token with span
`(start, position())`. -/
def notKeyword (src : List Char) (start pos : Nat) : Nat × List Token :=
  if nextIfIs src pos (" in ".toList) then
    (pos + 4,
      [⟨.Operator (.Comparison .NotIn), (start, pos + 4 - 1), "not in".toList⟩])
  else
    (pos, [⟨.Operator (.Logical .Not), (start, pos), "not".toList⟩])

/-- `Scanner::identifier`: a leading alpha character then alphanumerics;
the matched text is checked against the fixed keyword set
`and / or / in / true / false / not`, all other text becomes an
`Identifier` token. -/
def identifier (src : List Char) (pos : Nat) :
    Except LexerError (Nat × List Token) :=
  match nextc src pos with
  | .error err => .error err
  | .ok (start, _) =>
    let r := identLoop src (src.length + 1) (start + 1) start
    let endIdx := r.1
    let newPos := r.2
    let value := slice src start (endIdx + 1)
    if value = "and".toList then
      .ok (newPos, [⟨.Operator (.Logical .And), (start, endIdx + 1), value⟩])
    else if value = "or".toList then
      .ok (newPos, [⟨.Operator (.Logical .Or), (start, endIdx + 1), value⟩])
    else if value = "in".toList then
      .ok (newPos, [⟨.Operator (.Comparison .In), (start, endIdx + 1), value⟩])
    else if value = "true".toList then
      .ok (newPos, [⟨.Boolean true, (start, endIdx + 1), value⟩])
    else if value = "false".toList then
      .ok (newPos, [⟨.Boolean false, (start, endIdx + 1), value⟩])
    else if value = "not".toList then
      .ok (notKeyword src start newPos)
    else
      .ok (newPos, [⟨.Identifier value, (start, endIdx + 1), value⟩])

/-- `Scanner::scan_cursor_item` without its backtick arm: the in-order
dispatch on the peeked character `(i, c)`.  The backtick arm is split out
into `scanCursorItem` (the backtick character belongs to none of the other
classes, so testing it first is equivalent to the source's arm order);
this lets the template-string loop, which re-dispatches only non-backtick
characters, call the dispatcher without mutual recursion. -/
def scanSimpleItem (src : List Char) (i : Nat) (c : Char) :
    Except LexerError (Nat × List Token) :=
  if isSpaceChar c then .ok (i + 1, [])
  else if c = singleQuoteChar then string src .SingleQuote i
  else if c = doubleQuoteChar then string src .DoubleQuote i
  else if isDigitChar c then number src i
  else if isBracketChar c then bracket src i
  else if isCmpOperatorChar c then cmpOperator src i
  else if isOperatorChar c then operator src i
  else if isQuestionMarkChar c then questionMark src i
  else if c = '.' then dot src i
  else if isAlphaChar c then identifier src i
  else .error (.UnmatchedSymbol c i)

/-- The loop of `Scanner::template_string`: the dual-mode alternation over
`in_expression` and the pending-literal start `str_start`.  In expression
mode any character other than `` ` `` and `}` is stepped back and
re-dispatched through the ordinary scan routines. -/
def templateLoop (src : List Char) :
    Nat → Bool → Nat → Nat → Except LexerError (Nat × List Token)
  | 0, _, _, pos => .error (eofError src pos)
  | fuel + 1, inExpression, strStart, pos =>
    match nextc src pos with
    | .error err => .error err
    | .ok (e, c) =>
      if c = backtickChar then
        .ok (e + 1,
          (if strStart < e then
            [⟨.Literal, (strStart, e), slice src strStart e⟩]
          else []) ++
          [⟨.QuotationMark .Backtick, (e, e + 1), QuotationMark.Backtick.intoChars⟩])
      else if c = '$' ∧ inExpression = false then
        if nextIfIs src (e + 1) [openBraceChar] then
          match templateLoop src fuel true strStart (e + 2) with
          | .error err => .error err
          | .ok (p, ts) =>
            .ok (p,
              ⟨.Literal, (strStart, e), slice src strStart e⟩ ::
              ⟨.TemplateString .ExpressionStart, (e, e + 2),
                TemplateString.ExpressionStart.intoChars⟩ :: ts)
        else templateLoop src fuel false strStart (e + 1)
      else if c = closeBraceChar ∧ inExpression = true then
        match templateLoop src fuel false (e + 1) (e + 1) with
        | .error err => .error err
        | .ok (p, ts) =>
          .ok (p,
            ⟨.TemplateString .ExpressionEnd, (strStart, e),
              TemplateString.ExpressionEnd.intoChars⟩ :: ts)
      else if inExpression = false then
        templateLoop src fuel inExpression strStart (e + 1)
      else
        match scanSimpleItem src e c with
        | .error err => .error err
        | .ok (p, ts) =>
          match templateLoop src fuel inExpression strStart p with
          | .error err => .error err
          | .ok (p2, ts2) => .ok (p2, ts ++ ts2)

/-- `Scanner::template_string`: opening backtick token, then the dual-mode
loop. -/
def templateString (src : List Char) (pos : Nat) :
    Except LexerError (Nat × List Token) :=
  match nextc src pos with
  | .error err => .error err
  | .ok (start, _) =>
    match templateLoop src (src.length + 1) false (start + 1) (start + 1) with
    | .error err => .error err
    | .ok (p, ts) =>
      .ok (p,
        ⟨.QuotationMark .Backtick, (start, start + 1),
          QuotationMark.Backtick.intoChars⟩ :: ts)

/-- `Scanner::scan_cursor_item`: full dispatch including the backtick arm
(see `scanSimpleItem` for why the backtick test comes first). -/
def scanCursorItem (src : List Char) (i : Nat) (c : Char) :
    Except LexerError (Nat × List Token) :=
  if c = backtickChar then templateString src i
  else scanSimpleItem src i c

/-- `Scanner::scan`: peek, dispatch, repeat until the cursor is
exhausted. -/
def scanLoop (src : List Char) : Nat → Nat → Except LexerError (Nat × List Token)
  | 0, pos => .error (eofError src pos)
  | fuel + 1, pos =>
    match src[pos]? with
    | none => .ok (pos, [])
    | some c =>
      match scanCursorItem src pos c with
      | .error err => .error err
      | .ok (p, ts) =>
        match scanLoop src fuel p with
        | .error err => .error err
        | .ok (p2, ts2) => .ok (p2, ts ++ ts2)

/-- `Lexer::tokenize` as a function of the source text alone: clear the
token buffer, scan, return the emitted tokens. -/
def tokenize (src : List Char) : Except LexerError (List Token) :=
  match scanLoop src (src.length + 1) 0 with
  | .ok r => .ok r.2
  | .error e => .error e

/-- The `Lexer` value: it owns the (reused) token buffer. -/
structure Lexer where
  tokens : List Token
  deriving DecidableEq, Repr

/-- `Lexer::new`. -/
def Lexer.new : Lexer := ⟨[]⟩

/-- `Lexer::tokenize` with its receiver state: `self.tokens.clear()` then
scan; on success the buffer holds exactly the returned tokens.  On failure
the partially filled buffer is not a defined artifact (spec section 6:
"only the error matters on failure"), so the error branch leaves the
cleared buffer. -/
def Lexer.tokenize (lx : Lexer) (src : List Char) :
    Except LexerError (List Token) × Lexer :=
  match scanLoop src (src.length + 1) 0 with
  | .ok r => (.ok r.2, ⟨r.2⟩)
  | .error e => (.error e, ⟨(lx.tokens.take 0)⟩)

/-- The template example source of the spec: `a${1+2}b` wrapped in
backticks. -/
def templateExampleSrc : List Char :=
  [backtickChar, 'a', '$', openBraceChar, '1', '+', '2', closeBraceChar, 'b',
    backtickChar]

/-- The tokens the scanner actually produces for `templateExampleSrc`. -/
def templateExampleTokens : List Token :=
  [ ⟨.QuotationMark .Backtick, (0, 1), [backtickChar]⟩,
    ⟨.Literal, (1, 2), ['a']⟩,
    ⟨.TemplateString .ExpressionStart, (2, 4), ['$', openBraceChar]⟩,
    ⟨.Number, (4, 5), ['1']⟩,
    ⟨.Operator (.Arithmetic .Add), (5, 6), ['+']⟩,
    ⟨.Number, (6, 7), ['2']⟩,
    ⟨.TemplateString .ExpressionEnd, (1, 7), [closeBraceChar]⟩,
    ⟨.Literal, (8, 9), ['b']⟩,
    ⟨.QuotationMark .Backtick, (9, 10), [backtickChar]⟩ ]

/-- The template source `${1}` wrapped in backticks. -/
def emptyLiteralExampleSrc : List Char :=
  [backtickChar, '$', openBraceChar, '1', closeBraceChar, backtickChar]

/-- C1: the claim states that for `a${1+2}b` in backticks the
`ExpressionEnd` marker token's span is `(4, 7)` — just after `${` to just
before `}`.  The code never resets `str_start` after emitting
`ExpressionStart`, so the span it actually emits is `(1, 7)`: it starts at
the pending-literal start (just after the opening backtick), covering the
preceding literal text and the `${` characters as well.  This evaluation
records what the code does at the failing input. -/
theorem C1_expression_end_span_eval :
    (tokenize templateExampleSrc).map (fun ts => ts.map fun t => (t.kind, t.span)) =
      .ok
        [ (.QuotationMark .Backtick, (0, 1)),
          (.Literal, (1, 2)),
          (.TemplateString .ExpressionStart, (2, 4)),
          (.Number, (4, 5)),
          (.Operator (.Arithmetic .Add), (5, 6)),
          (.Number, (6, 7)),
          (.TemplateString .ExpressionEnd, (1, 7)),
          (.Literal, (8, 9)),
          (.QuotationMark .Backtick, (9, 10)) ] := by decide

/-- C2 counterexample: tokenizing `a${1+2}b` in backticks succeeds, yet the
emitted spans are neither strictly increasing in start nor non-overlapping:
the `ExpressionEnd` token with span `(1, 7)` follows the `Number` token
with span `(6, 7)`. -/
theorem C2_counterexample :
    tokenize templateExampleSrc = .ok templateExampleTokens ∧
      ¬ List.Pairwise
          (fun a b : Token => a.span.1 < b.span.1 ∧ a.span.2 ≤ b.span.1)
          templateExampleTokens := by
  refine ⟨by decide, fun h => ?_⟩
  have h56 := List.pairwise_iff_get.mp h ⟨5, by decide⟩ ⟨6, by decide⟩ (by decide)
  revert h56
  decide

/-- C3 counterexample: for the exact six-character input `not in` the
scanner does not produce a single `NotIn` token — the `not` lookahead
requires the literal `" in "` with a trailing space — it produces a
logical-not token followed by an `In` comparison token. -/
theorem C3_counterexample :
    (tokenize "not in".toList).map (fun ts => ts.map Token.kind) =
        .ok [.Operator (.Logical .Not), .Operator (.Comparison .In)] ∧
      (tokenize "not in".toList).map (fun ts => ts.map Token.kind) ≠
        .ok [.Operator (.Comparison .NotIn)] := by decide

/-- C3 amended: for the seven-character input `not in ` (with the trailing
space required by the `" in "` lookahead) the scanner produces exactly one
`NotIn` comparison token, with span `(0, 6)` covering the text `not in`
(the consumed trailing space is excluded from the span) and fixed value
`"not in"`; for `not x` it produces a standalone logical-not token followed
by the identifier `x`. -/
theorem C3_amended_not_lookahead :
    tokenize "not in ".toList =
        .ok [⟨.Operator (.Comparison .NotIn), (0, 6), "not in".toList⟩] ∧
      tokenize "not x".toList =
        .ok [⟨.Operator (.Logical .Not), (0, 3), "not".toList⟩,
             ⟨.Identifier ['x'], (4, 5), ['x']⟩] := by decide

/-- C4 counterexample: tokenizing `${1}` in backticks emits an empty
`Literal` token with span `(1, 1)` between the opening backtick token and
the `ExpressionStart` marker — the `$`-branch pushes the pending literal
unconditionally, with no `start < end` guard. -/
theorem C4_counterexample :
    tokenize emptyLiteralExampleSrc =
        .ok [⟨.QuotationMark .Backtick, (0, 1), [backtickChar]⟩,
             ⟨.Literal, (1, 1), []⟩,
             ⟨.TemplateString .ExpressionStart, (1, 3), ['$', openBraceChar]⟩,
             ⟨.Number, (3, 4), ['1']⟩,
             ⟨.TemplateString .ExpressionEnd, (1, 4), [closeBraceChar]⟩,
             ⟨.QuotationMark .Backtick, (5, 6), [backtickChar]⟩] ∧
      ((tokenize emptyLiteralExampleSrc).map fun ts =>
          (ts.map Token.kind).take 3) ≠
        .ok [.QuotationMark .Backtick, .TemplateString .ExpressionStart,
             .Number] := by decide

/-- C4 amended: when `${` is encountered in literal-text mode the pending
literal is flushed unconditionally — even when empty.  Tokenizing `${1}`
in backticks yields an empty `Literal` token with span `(1, 1)` between the
opening backtick and the `ExpressionStart` marker; the `start < end`
emptiness guard applies only when flushing at the closing backtick, where
no empty literal is emitted (there is no `Literal` token between the
`ExpressionEnd` marker and the closing backtick). -/
theorem C4_amended_unconditional_flush :
    (tokenize emptyLiteralExampleSrc).map (fun ts => ts.map fun t => (t.kind, t.span)) =
      .ok
        [ (.QuotationMark .Backtick, (0, 1)),
          (.Literal, (1, 1)),
          (.TemplateString .ExpressionStart, (1, 3)),
          (.Number, (3, 4)),
          (.TemplateString .ExpressionEnd, (1, 4)),
          (.QuotationMark .Backtick, (5, 6)) ] := by decide

/-- C5: for `a${1+2}b` wrapped in backticks, tokenize succeeds and returns
exactly: backtick quotation mark, Literal `a`, ExpressionStart, Number `1`,
the addition operator, Number `2`, ExpressionEnd, Literal `b`, backtick
quotation mark — the embedded expression's tokens interleaved in source
order between the two markers.  (The spans recorded in
`templateExampleTokens` are the ones the code actually emits.) -/
theorem C5_template_token_sequence :
    tokenize templateExampleSrc = .ok templateExampleTokens := by decide

/-- C8: tokenizing `12.34` yields a single Number token with value
`12.34`; tokenizing `1..2` yields Number `1`, the range operator `..`,
and Number `2` — never a malformed number token. -/
theorem C8_number_scanning :
    tokenize "12.34".toList = .ok [⟨.Number, (0, 5), "12.34".toList⟩] ∧
      tokenize "1..2".toList =
        .ok [⟨.Number, (0, 1), ['1']⟩,
             ⟨.Operator .Range, (1, 3), "..".toList⟩,
             ⟨.Number, (3, 4), ['2']⟩] := by decide

/-- C9: for every source on which a tokenize call succeeds, calling
tokenize again on the resulting `Lexer` value with the same source
succeeds with an identical token sequence — the buffer is cleared at the
start of each call, so no state carries over. -/
theorem C9_idempotent (lx lx2 : Lexer) (src : List Char) (ts : List Token)
    (h : lx.tokenize src = (.ok ts, lx2)) :
    lx2.tokenize src = (.ok ts, lx2) := by
  unfold Lexer.tokenize at h ⊢
  rcases hs : scanLoop src (src.length + 1) 0 with e | r <;> rw [hs] at h
  · exact absurd (congrArg Prod.fst h) (by simp)
  · simp only [Prod.mk.injEq, Except.ok.injEq] at h
    simp only [hs]
    rw [← h.1]
    exact congrArg _ h.2

/-- C9 witness: a successful call on `1` followed by a second call on the
resulting lexer value. -/
theorem C9_witness :
    (Lexer.mk [⟨.Number, (0, 1), ['1']⟩]).tokenize "1".toList =
      (.ok [⟨.Number, (0, 1), ['1']⟩], ⟨[⟨.Number, (0, 1), ['1']⟩]⟩) :=
  C9_idempotent Lexer.new (Lexer.mk [⟨.Number, (0, 1), ['1']⟩]) "1".toList
    [⟨.Number, (0, 1), ['1']⟩] (by decide)

/-- If the opening quote character reappears `k` positions ahead and not
earlier, the string loop stops exactly there. -/
theorem stringLoop_found (src : List Char) (opener : Char) :
    ∀ (k fuel pos : Nat), k < fuel →
      (∀ j, j < k → src[pos + j]? ≠ some opener) →
      src[pos + k]? = some opener →
      stringLoop src opener fuel pos = .ok (pos + k) := by
  intro k
  induction k with
  | zero =>
    intro fuel pos hf _ hop
    match fuel, hf with
    | f + 1, _ =>
      have hop2 : src[pos]? = some opener := by simpa using hop
      simp [stringLoop, hop2]
  | succ k ih =>
    intro fuel pos hf hno hop
    match fuel, hf with
    | f + 1, hf =>
      have hlt : pos < src.length := by
        have := (List.getElem?_eq_some.mp hop).1
        omega
      rcases hc : src[pos]? with _ | c
      · exact absurd (List.getElem?_eq_none_iff.mp hc) (by omega)
      · have hcne : c ≠ opener := by
          intro he
          exact hno 0 (by omega) (by simpa [he] using hc)
        have hrec := ih f (pos + 1) (by omega)
          (fun j hj => by
            have := hno (j + 1) (by omega)
            simpa [Nat.add_right_comm pos 1 j, Nat.add_assoc] using this)
          (by simpa [Nat.add_right_comm pos 1 k, Nat.add_assoc] using hop)
        simpa [stringLoop, hc, hcne, Nat.add_right_comm pos 1 k,
          Nat.add_assoc] using hrec

/-- If the opening quote character never reappears, the string loop runs to
the end of input and fails with the end-of-input error built from the last
character of the source. -/
theorem stringLoop_eof (src : List Char) (opener : Char) :
    ∀ (fuel pos : Nat), src.length - pos < fuel → pos ≤ src.length →
      (∀ j, pos ≤ j → src[j]? ≠ some opener) →
      stringLoop src opener fuel pos = .error (eofError src src.length) := by
  intro fuel
  induction fuel with
  | zero => intro pos hf _ _; omega
  | succ f ih =>
    intro pos hf hle hno
    rcases hc : src[pos]? with _ | c
    · have := List.getElem?_eq_none_iff.mp hc
      have hpos : pos = src.length := by omega
      subst hpos
      simp [stringLoop, hc]
    · have hpos : pos < src.length := (List.getElem?_eq_some.mp hc).1
      have hcne : c ≠ opener := by
        intro he
        exact hno pos le_rfl (by simpa [he] using hc)
      simp only [stringLoop, hc, hcne, if_false, if_neg hcne]
      exact ih (pos + 1) (by omega) (by omega) (fun j hj => hno j (by omega))

/-- When the cursor is exhausted the scan loop stops with no further
tokens. -/
theorem scanLoop_at_end (src : List Char) (fuel pos : Nat)
    (h : src.length ≤ pos) (hf : 0 < fuel) :
    scanLoop src fuel pos = .ok (pos, []) := by
  obtain ⟨f, rfl⟩ : ∃ f, fuel = f + 1 := ⟨fuel - 1, by omega⟩
  simp only [scanLoop, List.getElem?_eq_none h]

/-- If the very first dispatch consumes the entire source, tokenize returns
exactly that routine's tokens. -/
theorem tokenize_single_routine (src : List Char) (c : Char) (ts : List Token)
    (hc : src[0]? = some c)
    (h : scanCursorItem src 0 c = .ok (src.length, ts)) :
    tokenize src = .ok ts := by
  have hlen : 0 < src.length := by
    cases src
    · simp at hc
    · simp
  unfold tokenize
  simp only [scanLoop, hc, h,
    scanLoop_at_end src src.length src.length le_rfl hlen, List.append_nil]

/-- If the very first dispatch fails, tokenize fails with that error. -/
theorem tokenize_single_routine_error (src : List Char) (c : Char)
    (err : LexerError) (hc : src[0]? = some c)
    (h : scanCursorItem src 0 c = .error err) :
    tokenize src = .error err := by
  unfold tokenize
  simp only [scanLoop, hc, h]

/-- Dispatch of a single quote: the backtick test and the earlier arms all
fail on `'`, so scanning dispatches to the string routine. -/
theorem scanCursorItem_squote (src : List Char) (i : Nat) :
    scanCursorItem src i singleQuoteChar = string src .SingleQuote i := rfl

/-- Dispatch of a double quote. -/
theorem scanCursorItem_dquote (src : List Char) (i : Nat) :
    scanCursorItem src i doubleQuoteChar = string src .DoubleQuote i := rfl

/-- The string routine on a source whose quote never reappears: the
end-of-input error built at the very end of the source. -/
theorem string_unterminated (q : Char) (body : List Char) (qk : QuotationMark)
    (hb : q ∉ body) :
    string (q :: body) qk 0 = .error (eofError (q :: body) (q :: body).length) := by
  have hno : ∀ j, 1 ≤ j → (q :: body)[j]? ≠ some q := by
    intro j hj he
    obtain ⟨j', rfl⟩ : ∃ j', j = j' + 1 := ⟨j - 1, by omega⟩
    rw [List.getElem?_cons_succ] at he
    exact hb (List.getElem?_mem he)
  have hsl : stringLoop (q :: body) q ((q :: body).length + 1) 1 =
      .error (eofError (q :: body) (q :: body).length) :=
    stringLoop_eof _ _ _ 1 (by simp; omega) (by simp) hno
  unfold string
  simp only [nextc, List.getElem?_cons_zero, Nat.zero_add]
  rw [hsl]

/-- C7: for every input that opens a single- or double-quoted string whose
closing quote never appears before the end of input, tokenize fails with
the unexpected-end-of-input error carrying the last consumed character and
its position (the end of the buffer; for the shortest such input the last
consumed character is the quote itself at position 0, which also satisfies
the sentinel reading). -/
theorem C7_unterminated_string (q : Char) (body : List Char)
    (hq : q = singleQuoteChar ∨ q = doubleQuoteChar)
    (hb : q ∉ body) :
    tokenize (q :: body) =
      .error (.UnexpectedEof ((q :: body).getLastD ' ') body.length) := by
  have heof : eofError (q :: body) (q :: body).length =
      .UnexpectedEof ((q :: body).getLastD ' ') body.length := by
    have hlen : (q :: body).length = body.length + 1 := by simp
    obtain ⟨x, hx⟩ : ∃ x, (q :: body).getLast? = some x := by
      cases hgl : (q :: body).getLast? with
      | none => simp at hgl
      | some x => exact ⟨x, rfl⟩
    have hidx : (q :: body).length - 1 = body.length := by simp
    have hg : (q :: body)[body.length]? = some x := by
      rw [← hidx, ← List.getLast?_eq_getElem?]
      exact hx
    rw [hlen]
    unfold eofError
    simp [hg, List.getLastD_eq_getLast?, hx]
  have hstr : scanCursorItem (q :: body) 0 q =
      .error (eofError (q :: body) (q :: body).length) := by
    rcases hq with rfl | rfl
    · rw [scanCursorItem_squote]
      exact string_unterminated _ _ _ hb
    · rw [scanCursorItem_dquote]
      exact string_unterminated _ _ _ hb
  rw [tokenize_single_routine_error (q :: body) q _ List.getElem?_cons_zero hstr,
    heof]

/-- C7 witness: the unterminated string `"abc` fails with the end-of-input
error at the buffer's end, carrying `c` and position 3. -/
theorem C7_witness :
    tokenize (doubleQuoteChar :: "abc".toList) =
      .error (.UnexpectedEof ((doubleQuoteChar :: "abc".toList).getLastD ' ')
        "abc".toList.length) :=
  C7_unterminated_string doubleQuoteChar "abc".toList (Or.inr rfl) (by decide)

/-- The string routine on a whole source `q body q` with no `q` inside the
body: three tokens and the cursor at the end. -/
theorem string_closed (q : Char) (body : List Char) (qk : QuotationMark)
    (hb : q ∉ body) :
    string (q :: (body ++ [q])) qk 0 =
      .ok (1 + body.length + 1,
        [ ⟨.QuotationMark qk, (0, 1), qk.intoChars⟩,
          ⟨.Literal, (1, 1 + body.length), body⟩,
          ⟨.QuotationMark qk, (1 + body.length, 1 + body.length + 1),
            qk.intoChars⟩ ]) := by
  have hfound : stringLoop (q :: (body ++ [q])) q
      ((q :: (body ++ [q])).length + 1) 1 = .ok (1 + body.length) := by
    apply stringLoop_found
    · simp
      omega
    · intro j hj he
      have h1 : (1 : Nat) + j = j + 1 := by omega
      rw [h1, List.getElem?_cons_succ, List.getElem?_append_left hj] at he
      exact hb (List.getElem?_mem he)
    · have h1 : (1 : Nat) + body.length = body.length + 1 := by omega
      rw [h1, List.getElem?_cons_succ, List.getElem?_append_right le_rfl]
      simp
  have hslice : slice (q :: (body ++ [q])) 1 (1 + body.length) = body := by
    unfold slice
    simp [List.take_left]
  unfold string
  simp only [nextc, List.getElem?_cons_zero, Nat.zero_add]
  rw [hfound]
  simp [hslice]

/-- C6: for every source that is a single- or double-quoted string whose
body contains no occurrence of the delimiting quote, tokenize yields
exactly three tokens — opening quote mark `(0, 1)`, literal body
`(1, end)`, closing quote mark `(end, end + 1)` with `end = 1 + |body|` —
whose spans are contiguous; the literal token is emitted even for an empty
body, and the concatenated token values reconstruct the source. -/
theorem C6_quoted_string (q : Char) (qk : QuotationMark) (body : List Char)
    (hq : (q = singleQuoteChar ∧ qk = .SingleQuote) ∨
      (q = doubleQuoteChar ∧ qk = .DoubleQuote))
    (hb : q ∉ body) :
    tokenize (q :: (body ++ [q])) =
      .ok [ ⟨.QuotationMark qk, (0, 1), [q]⟩,
            ⟨.Literal, (1, 1 + body.length), body⟩,
            ⟨.QuotationMark qk, (1 + body.length, 1 + body.length + 1), [q]⟩ ] ∧
      [q] ++ body ++ [q] = q :: (body ++ [q]) := by
  refine ⟨?_, by simp⟩
  have hqchars : qk.intoChars = [q] := by
    rcases hq with ⟨rfl, rfl⟩ | ⟨rfl, rfl⟩ <;> rfl
  have hcursor : scanCursorItem (q :: (body ++ [q])) 0 q =
      string (q :: (body ++ [q])) qk 0 := by
    rcases hq with ⟨rfl, rfl⟩ | ⟨rfl, rfl⟩
    · exact scanCursorItem_squote _ 0
    · exact scanCursorItem_dquote _ 0
  apply tokenize_single_routine _ q _ List.getElem?_cons_zero
  rw [hcursor, string_closed q body qk hb, hqchars]
  have hlen : (q :: (body ++ [q])).length = 1 + body.length + 1 := by
    simp
    omega
  rw [hlen]

/-- C6 witness: the two-character body `ab` in single quotes. -/
theorem C6_witness :
    tokenize (singleQuoteChar :: ("ab".toList ++ [singleQuoteChar])) =
      .ok [ ⟨.QuotationMark .SingleQuote, (0, 1), [singleQuoteChar]⟩,
            ⟨.Literal, (1, 1 + "ab".toList.length), "ab".toList⟩,
            ⟨.QuotationMark .SingleQuote,
              (1 + "ab".toList.length, 1 + "ab".toList.length + 1),
              [singleQuoteChar]⟩ ] ∧
      [singleQuoteChar] ++ "ab".toList ++ [singleQuoteChar] =
        singleQuoteChar :: ("ab".toList ++ [singleQuoteChar]) :=
  C6_quoted_string singleQuoteChar .SingleQuote "ab".toList
    (Or.inl ⟨rfl, rfl⟩) (by decide)

/-- A digit differs from any concrete non-digit character. -/
theorem ne_of_isDigit {c d : Char} (h : c.isDigit = true)
    (hd : d.isDigit = false) : c ≠ d := by
  intro he
  rw [he, hd] at h
  cases h

/-- Dispatch of a digit: the earlier arms (space, quotes) all fail, so
scanning dispatches to the number routine. -/
theorem scanSimpleItem_digit (src : List Char) (i : Nat) (c : Char)
    (h : c.isDigit = true) :
    scanSimpleItem src i c = number src i := by
  have hs : isSpaceChar c = false := by
    simp only [isSpaceChar, Bool.or_eq_false_iff, beq_eq_false_iff_ne]
    exact ⟨⟨⟨ne_of_isDigit h (by decide), ne_of_isDigit h (by decide)⟩,
      ne_of_isDigit h (by decide)⟩, ne_of_isDigit h (by decide)⟩
  have h1 : c ≠ singleQuoteChar := ne_of_isDigit h (by decide)
  have h2 : c ≠ doubleQuoteChar := ne_of_isDigit h (by decide)
  simp [scanSimpleItem, hs, h1, h2, isDigitChar, h]

/-- Full dispatch of a digit (a digit is not a backtick). -/
theorem scanCursorItem_digit (src : List Char) (i : Nat) (c : Char)
    (h : c.isDigit = true) :
    scanCursorItem src i c = number src i := by
  unfold scanCursorItem
  rw [if_neg (ne_of_isDigit h (by decide)), scanSimpleItem_digit src i c h]

/-- The number loop over the remaining characters of `ds ++ [.]` (digits
then a final dot): the digits are consumed, the dot's peek sees end of
input so the dot is consumed too and the final index recorded, and the
loop stops just past the end of the source. -/
theorem numberLoop_digits_dot (ds : List Char) (hd : ∀ c ∈ ds, c.isDigit) :
    ∀ fuel pos e, ds.length + 1 - pos < fuel → 1 ≤ pos → pos ≤ ds.length →
      numberLoop (ds ++ ['.']) fuel pos e false = (ds.length, ds.length + 1) := by
  intro fuel
  induction fuel with
  | zero => intro pos e h1 _ _; omega
  | succ f ih =>
    intro pos e h1 h2 h3
    rcases Nat.lt_or_ge pos ds.length with hlt | hge
    · have hc : (ds ++ ['.'])[pos]? = some ds[pos] := by
        rw [List.getElem?_append_left hlt, List.getElem?_eq_getElem hlt]
      have hdig : ds[pos].isDigit = true := hd _ (List.getElem_mem hlt)
      have hne : ds[pos] ≠ '.' := ne_of_isDigit hdig (by decide)
      have hcd : isDigitChar ds[pos] = true := hdig
      simp only [numberLoop, hc, hcd, Bool.true_or, if_true, Bool.false_and,
        Bool.false_eq_true, if_false, if_neg hne, false_and]
      exact ih (pos + 1) pos (by omega) (by omega) (by omega)
    · have hpos : pos = ds.length := by omega
      subst hpos
      have hc : (ds ++ ['.'])[ds.length]? = some '.' := by
        rw [List.getElem?_append_right le_rfl]
        simp
      have hnone : (ds ++ ['.'])[ds.length + 1]? = none :=
        List.getElem?_eq_none (by simp)
      obtain ⟨f', rfl⟩ : ∃ f', f = f' + 1 := ⟨f - 1, by omega⟩
      simp only [numberLoop, hc, hnone, Bool.or_true, if_true, Bool.false_and,
        Bool.false_eq_true, if_false, if_pos rfl]
      simp

/-- C10: for every nonempty all-digit prefix followed by a single final
`.` at end of input, tokenize succeeds with a single Number token that
includes the trailing dot, spanning the whole input. -/
theorem C10_trailing_dot (ds : List Char) (hne : ds ≠ [])
    (hd : ∀ c ∈ ds, c.isDigit) :
    tokenize (ds ++ ['.']) = .ok [⟨.Number, (0, ds.length + 1), ds ++ ['.']⟩] := by
  obtain ⟨d0, ds', rfl⟩ := List.exists_cons_of_ne_nil hne
  have hc0 : ((d0 :: ds') ++ ['.'])[0]? = some d0 := by
    rw [List.cons_append, List.getElem?_cons_zero]
  have hd0 : d0.isDigit = true := hd d0 (by simp)
  have hnl : numberLoop ((d0 :: ds') ++ ['.']) (((d0 :: ds') ++ ['.']).length + 1)
      1 0 false = ((d0 :: ds').length, (d0 :: ds').length + 1) := by
    apply numberLoop_digits_dot (d0 :: ds') hd
    · simp
    · omega
    · simp
  have hslice : slice ((d0 :: ds') ++ ['.']) 0 ((d0 :: ds').length + 1) =
      (d0 :: ds') ++ ['.'] := by
    unfold slice
    rw [List.drop_zero, Nat.sub_zero]
    have : (d0 :: ds').length + 1 = ((d0 :: ds') ++ ['.']).length := by simp
    rw [this, List.take_length]
  have hnum : number ((d0 :: ds') ++ ['.']) 0 =
      .ok (((d0 :: ds') ++ ['.']).length,
        [⟨.Number, (0, (d0 :: ds').length + 1), (d0 :: ds') ++ ['.']⟩]) := by
    unfold number
    simp only [nextc, hc0, Nat.zero_add, hnl, hslice]
    simp
  apply tokenize_single_routine _ d0 _ hc0
  rw [scanCursorItem_digit _ _ _ hd0, hnum]

/-- C10 witness: the input `12.` produces the single Number token `12.`
spanning all three characters. -/
theorem C10_witness :
    tokenize ("12".toList ++ ['.']) =
      .ok [⟨.Number, (0, "12".toList.length + 1), "12".toList ++ ['.']⟩] :=
  C10_trailing_dot "12".toList (by decide) (by decide)

/-- `SpansFrom lo ts hi`: every span in `ts` lies between `lo` and `hi`,
each span is well-formed (`start ≤ stop`), and consecutive spans are
ordered: each token's stop is at most the next token's start. -/
def SpansFrom : Nat → List Token → Nat → Prop
  | lo, [], hi => lo ≤ hi
  | lo, t :: ts, hi => lo ≤ t.span.1 ∧ t.span.1 ≤ t.span.2 ∧ SpansFrom t.span.2 ts hi

theorem spansFrom_nil {lo hi : Nat} : SpansFrom lo [] hi ↔ lo ≤ hi := Iff.rfl

theorem spansFrom_cons {lo hi : Nat} {t : Token} {ts : List Token} :
    SpansFrom lo (t :: ts) hi ↔
      lo ≤ t.span.1 ∧ t.span.1 ≤ t.span.2 ∧ SpansFrom t.span.2 ts hi := Iff.rfl

theorem SpansFrom.mono {lo lo' hi : Nat} {ts : List Token}
    (h : SpansFrom lo ts hi) (hle : lo' ≤ lo) : SpansFrom lo' ts hi := by
  cases ts with
  | nil => exact le_trans hle h
  | cons t ts => exact ⟨le_trans hle h.1, h.2⟩

theorem SpansFrom.append {lo mid hi : Nat} {ts ts' : List Token}
    (h1 : SpansFrom lo ts mid) (h2 : SpansFrom mid ts' hi) :
    SpansFrom lo (ts ++ ts') hi := by
  induction ts generalizing lo with
  | nil => exact h2.mono h1
  | cons t ts ih => exact ⟨h1.1, h1.2.1, ih h1.2.2⟩

theorem SpansFrom.start_le {lo hi : Nat} {ts : List Token}
    (h : SpansFrom lo ts hi) : ∀ t ∈ ts, lo ≤ t.span.1 := by
  induction ts generalizing lo with
  | nil => simp
  | cons a ts ih =>
    intro t ht
    rcases List.mem_cons.mp ht with rfl | ht
    · exact h.1
    · exact le_trans (le_trans h.1 h.2.1) (ih h.2.2 t ht)

theorem SpansFrom.pairwise {lo hi : Nat} {ts : List Token}
    (h : SpansFrom lo ts hi) :
    ts.Pairwise (fun a b => a.span.2 ≤ b.span.1 ∧ a.span.1 ≤ b.span.1) := by
  induction ts generalizing lo with
  | nil => simp
  | cons a ts ih =>
    refine List.Pairwise.cons (fun b hb => ?_) (ih h.2.2)
    have hb1 := h.2.2.start_le b hb
    exact ⟨hb1, le_trans h.2.1 hb1⟩

/-- The string loop only moves forward. -/
theorem stringLoop_le {src : List Char} {opener : Char} :
    ∀ {fuel pos endIdx : Nat},
      stringLoop src opener fuel pos = .ok endIdx → pos ≤ endIdx := by
  intro fuel
  induction fuel with
  | zero => intro pos endIdx h; simp [stringLoop] at h
  | succ f ih =>
    intro pos endIdx h
    rw [stringLoop] at h
    cases hc : src[pos]? with
    | none => rw [hc] at h; exact absurd h (by simp)
    | some c =>
      simp only [hc] at h
      by_cases he : c = opener
      · rw [if_pos he] at h
        simp only [Except.ok.injEq] at h
        omega
      · rw [if_neg he] at h
        have := ih h
        omega

/-- The number loop only moves forward, and the recorded end index stays
between its initial value and the cursor. -/
theorem numberLoop_bounds {src : List Char} :
    ∀ {fuel pos e : Nat} {fr : Bool}, e < pos →
      (numberLoop src fuel pos e fr).1 < (numberLoop src fuel pos e fr).2 ∧
        pos ≤ (numberLoop src fuel pos e fr).2 ∧
        e ≤ (numberLoop src fuel pos e fr).1 := by
  intro fuel
  induction fuel with
  | zero => intro pos e fr he; simp [numberLoop]; omega
  | succ f ih =>
    intro pos e fr he
    rw [numberLoop]
    cases hc : src[pos]? with
    | none => simp; omega
    | some c =>
      simp only [hc]
      by_cases hcls : (isDigitChar c || decide (c = '_') || decide (c = '.')) = true
      · rw [if_pos hcls]
        by_cases hfr : fr = true ∧ c = '.'
        · rw [if_pos hfr]
          simp
          omega
        · rw [if_neg hfr]
          by_cases hdot : c = '.'
          · rw [if_pos hdot]
            cases hp : src[pos + 1]? with
            | none =>
              simp only [hp]
              have := @ih (pos + 1) pos fr (by omega)
              exact ⟨this.1, by omega, by omega⟩
            | some p =>
              simp only [hp]
              by_cases hpd : p = '.'
              · rw [if_pos hpd]
                simp
                omega
              · rw [if_neg hpd]
                have := @ih (pos + 1) pos true (by omega)
                exact ⟨this.1, by omega, by omega⟩
          · rw [if_neg hdot]
            have := @ih (pos + 1) pos fr (by omega)
            exact ⟨this.1, by omega, by omega⟩
      · rw [if_neg hcls]
        simp
        omega

/-- The identifier loop only moves forward, and the recorded end index
stays between its initial value and the cursor. -/
theorem identLoop_bounds {src : List Char} :
    ∀ {fuel pos e : Nat}, e < pos →
      (identLoop src fuel pos e).1 < (identLoop src fuel pos e).2 ∧
        pos ≤ (identLoop src fuel pos e).2 ∧
        e ≤ (identLoop src fuel pos e).1 := by
  intro fuel
  induction fuel with
  | zero => intro pos e he; simp [identLoop]; omega
  | succ f ih =>
    intro pos e he
    rw [identLoop]
    cases hc : src[pos]? with
    | none => simp; omega
    | some c =>
      simp only [hc]
      by_cases ha : isAlphanumericChar c = true
      · rw [if_pos ha]
        have := @ih (pos + 1) pos (by omega)
        exact ⟨this.1, by omega, by omega⟩
      · rw [if_neg ha]
        simp
        omega

/-- A single well-placed token chunk. -/
theorem spansFrom_single {pos a b p : Nat} {k : TokenKind} {v : List Char}
    (h1 : pos ≤ a) (h2 : a ≤ b) (h3 : b ≤ p) :
    SpansFrom pos [⟨k, (a, b), v⟩] p := ⟨h1, h2, h3⟩

/-- Spans emitted by the string routine lie between the entry and exit
positions and are ordered. -/
theorem string_spans {src : List Char} {qk : QuotationMark} {pos p : Nat}
    {ts : List Token} (h : string src qk pos = .ok (p, ts)) :
    SpansFrom pos ts p := by
  unfold string at h
  cases hc : src[pos]? with
  | none => simp [nextc, hc] at h
  | some c =>
    simp only [nextc, hc] at h
    cases hsl : stringLoop src c (src.length + 1) (pos + 1) with
    | error e => simp [hsl] at h
    | ok endIdx =>
      simp only [hsl, Except.ok.injEq, Prod.mk.injEq] at h
      obtain ⟨rfl, rfl⟩ := h
      have hle : pos + 1 ≤ endIdx := stringLoop_le hsl
      simp only [spansFrom_cons, spansFrom_nil]
      omega

/-- Spans emitted by the number routine. -/
theorem number_spans {src : List Char} {pos p : Nat} {ts : List Token}
    (h : number src pos = .ok (p, ts)) : SpansFrom pos ts p := by
  unfold number at h
  cases hc : src[pos]? with
  | none => simp [nextc, hc] at h
  | some c =>
    simp only [nextc, hc, Except.ok.injEq, Prod.mk.injEq] at h
    obtain ⟨rfl, rfl⟩ := h
    have hb := @numberLoop_bounds src (src.length + 1) (pos + 1) pos false
      (by omega)
    exact spansFrom_single le_rfl (by omega) (by omega)

/-- Spans emitted by the bracket routine. -/
theorem bracket_spans {src : List Char} {pos p : Nat} {ts : List Token}
    (h : bracket src pos = .ok (p, ts)) : SpansFrom pos ts p := by
  unfold bracket at h
  cases hc : src[pos]? with
  | none => simp [nextc, hc] at h
  | some c =>
    simp only [nextc, hc] at h
    cases htf : Bracket.tryFrom (slice src pos (pos + 1)) with
    | none => simp [htf] at h
    | some b =>
      simp only [htf, Except.ok.injEq, Prod.mk.injEq] at h
      obtain ⟨rfl, rfl⟩ := h
      exact spansFrom_single le_rfl (by omega) le_rfl

/-- Spans emitted by the generic single-character operator routine. -/
theorem operator_spans {src : List Char} {pos p : Nat} {ts : List Token}
    (h : operator src pos = .ok (p, ts)) : SpansFrom pos ts p := by
  unfold operator at h
  cases hc : src[pos]? with
  | none => simp [nextc, hc] at h
  | some c =>
    simp only [nextc, hc] at h
    cases htf : Operator.tryFrom (slice src pos (pos + 1)) with
    | none => simp [htf] at h
    | some op =>
      simp only [htf, Except.ok.injEq, Prod.mk.injEq] at h
      obtain ⟨rfl, rfl⟩ := h
      exact spansFrom_single le_rfl (by omega) le_rfl

/-- Spans emitted by the dot routine (`.` or `..`). -/
theorem dot_spans {src : List Char} {pos p : Nat} {ts : List Token}
    (h : dot src pos = .ok (p, ts)) : SpansFrom pos ts p := by
  unfold dot at h
  cases hc : src[pos]? with
  | none => simp [nextc, hc] at h
  | some c =>
    simp only [nextc, hc] at h
    rcases hp : src[pos + 1]? with _ | c2 <;> simp only [hp] at h
    · cases htf : Operator.tryFrom (slice src pos (pos + 1)) with
      | none => simp [htf] at h
      | some op =>
        simp only [htf, Except.ok.injEq, Prod.mk.injEq] at h
        obtain ⟨rfl, rfl⟩ := h
        exact spansFrom_single le_rfl (by omega) le_rfl
    · by_cases hd : c2 = '.'
      · simp only [if_pos hd] at h
        cases htf : Operator.tryFrom (slice src pos (pos + 1 + 1)) with
        | none => simp [htf] at h
        | some op =>
          simp only [htf, Except.ok.injEq, Prod.mk.injEq] at h
          obtain ⟨rfl, rfl⟩ := h
          exact spansFrom_single le_rfl (Nat.le_add_right pos 2) le_rfl
      · simp only [if_neg hd] at h
        cases htf : Operator.tryFrom (slice src pos (pos + 1)) with
        | none => simp [htf] at h
        | some op =>
          simp only [htf, Except.ok.injEq, Prod.mk.injEq] at h
          obtain ⟨rfl, rfl⟩ := h
          exact spansFrom_single le_rfl (by omega) le_rfl

/-- Spans emitted by the comparison-operator routine. -/
theorem cmpOperator_spans {src : List Char} {pos p : Nat} {ts : List Token}
    (h : cmpOperator src pos = .ok (p, ts)) : SpansFrom pos ts p := by
  unfold cmpOperator at h
  cases hc : src[pos]? with
  | none => simp [nextc, hc] at h
  | some c =>
    simp only [nextc, hc] at h
    rcases hp : src[pos + 1]? with _ | c2 <;> simp only [hp] at h
    · cases htf : Operator.tryFrom (slice src pos (pos + 1)) with
      | none => simp [htf] at h
      | some op =>
        simp only [htf, Except.ok.injEq, Prod.mk.injEq] at h
        obtain ⟨rfl, rfl⟩ := h
        exact spansFrom_single le_rfl (by omega) le_rfl
    · by_cases hd : c2 = '='
      · simp only [if_pos hd] at h
        cases htf : Operator.tryFrom (slice src pos (pos + 1 + 1)) with
        | none => simp [htf] at h
        | some op =>
          simp only [htf, Except.ok.injEq, Prod.mk.injEq] at h
          obtain ⟨rfl, rfl⟩ := h
          exact spansFrom_single le_rfl (Nat.le_add_right pos 2) le_rfl
      · simp only [if_neg hd] at h
        cases htf : Operator.tryFrom (slice src pos (pos + 1)) with
        | none => simp [htf] at h
        | some op =>
          simp only [htf, Except.ok.injEq, Prod.mk.injEq] at h
          obtain ⟨rfl, rfl⟩ := h
          exact spansFrom_single le_rfl (by omega) le_rfl

/-- Spans emitted by the question-mark routine (`?` or `??`). -/
theorem questionMark_spans {src : List Char} {pos p : Nat} {ts : List Token}
    (h : questionMark src pos = .ok (p, ts)) : SpansFrom pos ts p := by
  unfold questionMark at h
  cases hc : src[pos]? with
  | none => simp [nextc, hc] at h
  | some c =>
    simp only [nextc, hc] at h
    rcases hp : src[pos + 1]? with _ | c2 <;>
      simp only [hp, Option.any_none, Option.any_some] at h
    · simp only [Bool.false_eq_true, if_false, Except.ok.injEq,
        Prod.mk.injEq] at h
      obtain ⟨rfl, rfl⟩ := h
      exact spansFrom_single le_rfl (by omega) le_rfl
    · by_cases hq2 : (c2 == '?') = true
      · simp only [hq2, if_true, Except.ok.injEq, Prod.mk.injEq] at h
        obtain ⟨rfl, rfl⟩ := h
        exact spansFrom_single le_rfl (by omega) le_rfl
      · simp only [hq2, Bool.false_eq_true, if_false, Except.ok.injEq,
          Prod.mk.injEq] at h
        obtain ⟨rfl, rfl⟩ := h
        exact spansFrom_single le_rfl (by omega) le_rfl

/-- Spans emitted by the `not` lookahead. -/
theorem notKeyword_spans (src : List Char) (start pos : Nat)
    (hlt : start < pos) :
    SpansFrom start (notKeyword src start pos).2 (notKeyword src start pos).1 := by
  unfold notKeyword
  by_cases hin : nextIfIs src pos (" in ".toList) = true
  · rw [if_pos hin]
    exact spansFrom_single (by omega) (by omega) (by omega)
  · rw [if_neg hin]
    exact spansFrom_single (by omega) (by omega) le_rfl

/-- Spans emitted by the identifier/keyword routine. -/
theorem identifier_spans {src : List Char} {pos p : Nat} {ts : List Token}
    (h : identifier src pos = .ok (p, ts)) : SpansFrom pos ts p := by
  unfold identifier at h
  cases hc : src[pos]? with
  | none => simp [nextc, hc] at h
  | some c =>
    simp only [nextc, hc] at h
    have hb := @identLoop_bounds src (src.length + 1) (pos + 1) pos (by omega)
    set r := identLoop src (src.length + 1) (pos + 1) pos with hr
    set v := slice src pos (r.1 + 1) with hv
    have hfin : ∀ k : TokenKind,
        (Except.ok (r.2, [⟨k, (pos, r.1 + 1), v⟩]) :
            Except LexerError (Nat × List Token)) = .ok (p, ts) →
        SpansFrom pos ts p := by
      intro k hm
      simp only [Except.ok.injEq, Prod.mk.injEq] at hm
      obtain ⟨rfl, rfl⟩ := hm
      exact spansFrom_single le_rfl (by omega) (by omega)
    by_cases h1 : v = "and".toList
    · rw [if_pos h1] at h
      exact hfin _ h
    rw [if_neg h1] at h
    by_cases h2 : v = "or".toList
    · rw [if_pos h2] at h
      exact hfin _ h
    rw [if_neg h2] at h
    by_cases h3 : v = "in".toList
    · rw [if_pos h3] at h
      exact hfin _ h
    rw [if_neg h3] at h
    by_cases h4 : v = "true".toList
    · rw [if_pos h4] at h
      exact hfin _ h
    rw [if_neg h4] at h
    by_cases h5 : v = "false".toList
    · rw [if_pos h5] at h
      exact hfin _ h
    rw [if_neg h5] at h
    by_cases h6 : v = "not".toList
    · rw [if_pos h6] at h
      simp only [Except.ok.injEq] at h
      have hnk := notKeyword_spans src pos r.2 (by omega)
      rw [h] at hnk
      exact hnk
    · rw [if_neg h6] at h
      exact hfin _ h

/-- Spans emitted by any single non-backtick dispatch lie between the
entry and exit positions and are ordered. -/
theorem scanSimpleItem_spans {src : List Char} {i : Nat} {c : Char}
    {p : Nat} {ts : List Token}
    (h : scanSimpleItem src i c = .ok (p, ts)) : SpansFrom i ts p := by
  unfold scanSimpleItem at h
  by_cases g1 : isSpaceChar c = true
  · rw [if_pos g1] at h
    simp only [Except.ok.injEq, Prod.mk.injEq] at h
    obtain ⟨rfl, rfl⟩ := h
    exact Nat.le_succ i
  rw [if_neg g1] at h
  by_cases g2 : c = singleQuoteChar
  · rw [if_pos g2] at h
    exact string_spans h
  rw [if_neg g2] at h
  by_cases g3 : c = doubleQuoteChar
  · rw [if_pos g3] at h
    exact string_spans h
  rw [if_neg g3] at h
  by_cases g4 : isDigitChar c = true
  · rw [if_pos g4] at h
    exact number_spans h
  rw [if_neg g4] at h
  by_cases g5 : isBracketChar c = true
  · rw [if_pos g5] at h
    exact bracket_spans h
  rw [if_neg g5] at h
  by_cases g6 : isCmpOperatorChar c = true
  · rw [if_pos g6] at h
    exact cmpOperator_spans h
  rw [if_neg g6] at h
  by_cases g7 : isOperatorChar c = true
  · rw [if_pos g7] at h
    exact operator_spans h
  rw [if_neg g7] at h
  by_cases g8 : isQuestionMarkChar c = true
  · rw [if_pos g8] at h
    exact questionMark_spans h
  rw [if_neg g8] at h
  by_cases g9 : c = '.'
  · rw [if_pos g9] at h
    exact dot_spans h
  rw [if_neg g9] at h
  by_cases g10 : isAlphaChar c = true
  · rw [if_pos g10] at h
    exact identifier_spans h
  · rw [if_neg g10] at h
    simp at h

/-- Spans across a whole backtick-free scan are ordered. -/
theorem scanLoop_spans {src : List Char}
    (hnb : ∀ c ∈ src, c ≠ backtickChar) :
    ∀ {fuel pos p : Nat} {ts : List Token},
      scanLoop src fuel pos = .ok (p, ts) → SpansFrom pos ts p := by
  intro fuel
  induction fuel with
  | zero => intro pos p ts h; simp [scanLoop] at h
  | succ f ih =>
    intro pos p ts h
    rw [scanLoop] at h
    cases hc : src[pos]? with
    | none =>
      simp only [hc, Except.ok.injEq, Prod.mk.injEq] at h
      obtain ⟨rfl, rfl⟩ := h
      exact le_rfl
    | some c =>
      simp only [hc] at h
      have hcb : c ≠ backtickChar := hnb c (List.getElem?_mem hc)
      rw [scanCursorItem, if_neg hcb] at h
      cases hsi : scanSimpleItem src pos c with
      | error e => simp [hsi] at h
      | ok r =>
        obtain ⟨p1, ts1⟩ := r
        simp only [hsi] at h
        cases hrec : scanLoop src f p1 with
        | error e => simp [hrec] at h
        | ok r2 =>
          obtain ⟨p2, ts2⟩ := r2
          simp only [hrec, Except.ok.injEq, Prod.mk.injEq] at h
          obtain ⟨rfl, rfl⟩ := h
          exact (scanSimpleItem_spans hsi).append (ih hrec)

/-- C2 amended: for every backtick-free source on which tokenize succeeds,
the emitted spans are pairwise non-overlapping and non-decreasing in
start. -/
theorem C2_amended_no_template (src : List Char) (ts : List Token)
    (hnb : ∀ c ∈ src, c ≠ backtickChar)
    (h : tokenize src = .ok ts) :
    ts.Pairwise (fun a b => a.span.2 ≤ b.span.1 ∧ a.span.1 ≤ b.span.1) := by
  unfold tokenize at h
  cases hs : scanLoop src (src.length + 1) 0 with
  | error e => rw [hs] at h; exact absurd h (by simp)
  | ok r =>
    rw [hs] at h
    simp only [Except.ok.injEq] at h
    subst h
    exact (scanLoop_spans hnb hs).pairwise

/-- C2 witness: the backtick-free source `1+2`. -/
theorem C2_amended_witness :
    ([⟨.Number, (0, 1), ['1']⟩,
      ⟨.Operator (.Arithmetic .Add), (1, 2), ['+']⟩,
      ⟨.Number, (2, 3), ['2']⟩] : List Token).Pairwise
        (fun a b => a.span.2 ≤ b.span.1 ∧ a.span.1 ≤ b.span.1) :=
  C2_amended_no_template "1+2".toList
    [⟨.Number, (0, 1), ['1']⟩,
     ⟨.Operator (.Arithmetic .Add), (1, 2), ['+']⟩,
     ⟨.Number, (2, 3), ['2']⟩] (by decide) (by decide)

end Zen
